import Mathlib

/-!
Verification of `monitor_weekly.py` (weekly Scopus monitor).

This file gives a shallow embedding of the script's data model and of the
functions the specification's claims are about, and proves (or refutes) each
claim.  External effects are modelled explicitly:

* the Scopus HTTP endpoint is a function `Nat → Response` from the `start`
  offset of the request to the (already JSON-parsed) page returned;
* the Gemini `generate_content` call is a function from the prompt to an
  `Except` outcome (`.error` models a raised exception, `.ok none` models a
  response whose `.text` attribute is `None`);
* the SMTP send is a function from subject and body to an `Except` outcome;
* the state file is an `Option Json` value (`none` = file absent); Python's
  `json.dump`/`json.load` round trip is modelled by storing the JSON value
  itself.

Machine integers do not occur (Python integers are unbounded); all counts are
`Nat`.  Every definition is executable, so the theorems below can be (and are)
exercised on concrete inputs.
-/

/-- One publication record, as returned inside `search-results.entry`.
Python represents a record as a JSON dict; the fields the script reads are
modelled as strings, with `""` standing for an absent or `None`/empty value
(both are falsy in Python, which is how the script tests them).  The
`affiliation` value is polymorphic in the raw data (string / dict / list);
no claim depends on the structured branches of `format_affiliation`, so it is
modelled at its final string rendering. -/
structure Entry where
  eid : String
  title : String
  creator : String
  coverDate : String
  publicationName : String
  doi : String
  citedby : String
  affiliation : String
  authkeywords : String
deriving DecidableEq

/-- One parsed HTTP page from the Scopus search endpoint: the response status,
the raw body (`r.text`), the advertised `opensearch:totalResults` and the
`search-results.entry` array (already defaulted to `[]` as by
`sr.get("entry", [])`). -/
structure Response where
  status : Nat
  text : String
  total : Nat
  entry : List Entry

/-- The fatal error message raised on a non-200 page:
`f"Scopus API error {r.status_code}: {r.text[:900]}"`. -/
def scopusErr (r : Response) : String :=
  "Scopus API error " ++ toString r.status ++ ": " ++ r.text.take 900

/-- The pagination loop of `scopus_search_all` from its second request on
(`start = 25, 50, ...`), with `total` already captured from the first page and
`rows` the rows accumulated so far.  Mirrors the `while True:` body: non-200
status raises, a page with zero entries breaks, otherwise the entries are
appended and the loop breaks when `len(rows) >= total` and continues
otherwise.  The Python loop always terminates (each continuing iteration
strictly grows `rows` towards the fixed bound `total`); the same measure
justifies this recursion. -/
def fetchRest (server : Nat → Response) (total start : Nat) (rows : List Entry) :
    Except String (List Entry) :=
  if (server start).status ≠ 200 then
    .error (scopusErr (server start))
  else if h : (server start).entry = [] then
    .ok rows
  else if h2 : total ≤ (rows ++ (server start).entry).length then
    .ok (rows ++ (server start).entry)
  else
    fetchRest server total (start + 25) (rows ++ (server start).entry)
termination_by total - rows.length
decreasing_by
  have hpos : 0 < (server start).entry.length := List.length_pos.mpr h
  simp only [List.length_append] at h2 ⊢
  omega

/-- The dedup pass at the end of `scopus_search_all`: walk `rows` keeping a
`seen` set of eids; a record whose `eid` is falsy (absent/empty) or already
seen is skipped, otherwise its eid is added to `seen` and the record appended
to the output. -/
def dedupGo : List Entry → List String → List Entry
  | [], _ => []
  | e :: es, seen =>
    if e.eid = "" ∨ e.eid ∈ seen then dedupGo es seen
    else e :: dedupGo es (e.eid :: seen)

/-- `# Dedup by EID` block of `scopus_search_all` (seen starts empty). -/
def dedup_by_eid (rows : List Entry) : List Entry := dedupGo rows []

/-- The raw row accumulation of `scopus_search_all`: the first iteration of
the `while True:` loop (which also captures `total` from
`opensearch:totalResults`), then `fetchRest` for the remaining pages. -/
def scopus_fetch_rows (server : Nat → Response) : Except String (List Entry) :=
  if (server 0).status ≠ 200 then
    .error (scopusErr (server 0))
  else if (server 0).entry = [] then
    .ok []
  else if (server 0).total ≤ (server 0).entry.length then
    .ok (server 0).entry
  else
    fetchRest server (server 0).total 25 (server 0).entry

/-- `scopus_search_all(query)`: fetch all pages, then dedup by EID.  The fixed
query, headers and field list do not influence the control flow and are
absorbed into the `server` model. -/
def scopus_search_all (server : Nat → Response) : Except String (List Entry) :=
  (scopus_fetch_rows server).map dedup_by_eid

/-- Insert `x` at position `n` of a list (CPython's list insertion used by
binary insertion sort; the computed position is always within bounds). -/
def insertAt : Nat → α → List α → List α
  | 0, x, l => x :: l
  | _ + 1, x, [] => [x]
  | n + 1, x, a :: l => a :: insertAt n x l

/-- CPython's `binarysort` binary search: find the insertion position of
`pivot` in the sorted prefix `l[lo:r]`, probing `mid = (lo+r)/2` and moving
`r` down when `pivot < l[mid]` and `lo` up otherwise (rightmost position among
equals, which is what makes the sort stable).  `fuel ≥ r - lo` bounds the
loop; every call below passes `fuel = r`, which always suffices since
`r - lo` strictly decreases. -/
def bisect (lt : α → α → Bool) (pivot : α) (l : List α) : Nat → Nat → Nat → Nat
  | 0, lo, _ => lo
  | fuel + 1, lo, r =>
    if lo < r then
      if lt pivot (l.getD ((lo + r) / 2) pivot) then
        bisect lt pivot l fuel lo ((lo + r) / 2)
      else
        bisect lt pivot l fuel ((lo + r) / 2 + 1) r
    else lo

/-- Binary insertion sort: repeatedly insert the next element at the position
found by `bisect`.  This is the sorting algorithm CPython's `sorted` applies
(exactly, for the short lists considered concretely here; extensionally for
any list when the comparison is consistent, since Timsort is also a stable
sort driven by the same `<` calls). -/
def binInsertSortAux (lt : α → α → Bool) : List α → List α → List α
  | [], acc => acc
  | x :: xs, acc =>
    binInsertSortAux lt xs (insertAt (bisect lt x acc acc.length 0 acc.length) x acc)

/-- Python `sorted(l)` with comparison `lt` (ascending, stable). -/
def binInsertSort (lt : α → α → Bool) (l : List α) : List α :=
  binInsertSortAux lt l []

/-- Python `sorted(l, reverse=True)`: CPython reverses the list, stable-sorts
ascending, and reverses again. -/
def py_sorted_desc (lt : α → α → Bool) (l : List α) : List α :=
  (binInsertSort lt l.reverse).reverse

/-- Split a character list at `'-'` separators (the shape of an ISO
`YYYY-MM-DD` cover date). -/
def splitDash : List Char → List Char → List (List Char)
  | [], cur => [cur.reverse]
  | c :: cs, cur =>
    if c = '-' then cur.reverse :: splitDash cs []
    else splitDash cs (c :: cur)

/-- Parse a nonempty digit string into a `Nat` (anything else fails). -/
def digitsToNatAux : List Char → Nat → Option Nat
  | [], acc => some acc
  | c :: cs, acc =>
    if c.isDigit then digitsToNatAux cs (acc * 10 + (c.toNat - 48)) else none

/-- Parse a nonempty digit string into a `Nat`. -/
def digitsToNat : List Char → Option Nat
  | [] => none
  | cs => digitsToNatAux cs 0

/-- Model of `pd.to_datetime` on a `prism:coverDate` string: an ISO-style
`Y-M-D` date is mapped to the order-preserving code `y*10000 + m*100 + d`;
anything else (including the empty string standing for an absent field) is
`none`, the model of `pd.NaT` — which is also what the `except` branch of
`parse_date` in `build_email_html` returns on unparsable input. -/
def parseCoverDate (s : String) : Option Nat :=
  match (splitDash s.toList []).map digitsToNat with
  | [some y, some m, some d] => some (y * 10000 + m * 100 + d)
  | _ => none

/-- `parse_date` of `build_email_html`: parse the record's cover date,
`none` = `pd.NaT`. -/
def parse_date (e : Entry) : Option Nat := parseCoverDate e.coverDate

/-- Comparison of two parsed cover dates as Python evaluates `key1 < key2`:
`pd.NaT` compares `False` against everything (including itself), like `NaN`. -/
def optLt : Option Nat → Option Nat → Bool
  | some a, some b => decide (a < b)
  | _, _ => false

/-- The record comparison induced by `sorted(entries_30d, key=parse_date,
reverse=True)`: records compare by their parsed cover-date keys. -/
def entryLt (a b : Entry) : Bool := optLt (parse_date a) (parse_date b)

/-- The sort key restricted to records with a valid cover date. -/
def pkey (e : Entry) : Nat := (parse_date e).getD 0

/-- `paper_links(e)`: `(doi_link, scopus_web)`, each empty when the
corresponding stripped identifier is empty. -/
def paper_links (e : Entry) : String × String :=
  (if e.doi.trim = "" then "" else "https://doi.org/" ++ e.doi.trim,
   if e.eid.trim = "" then ""
   else "https://www.scopus.com/record/display.uri?eid=" ++ e.eid.trim ++ "&origin=resultslist")

/-- `format_affiliation_one` on the string form of the field (the structured
dict/list branches flatten to a string; no claim depends on them). -/
def format_affiliation_one (aff : String) : String := aff.trim

/-- One `<li>` of the itemized list in `build_email_html`. -/
def render_item (e : Entry) : String :=
  let links :=
    (if (paper_links e).1 = "" then []
     else ["<a href=\"" ++ (paper_links e).1 ++ "\">DOI</a>"]) ++
    (if (paper_links e).2 = "" then []
     else ["<a href=\"" ++ (paper_links e).2 ++ "\">Scopus</a>"])
  let link_html := if links = [] then "" else String.intercalate " | " links
  "<li style=\"margin-bottom:14px;\"><b>" ++ e.title ++ "</b><br/><span>" ++
    e.publicationName ++ " | " ++ e.coverDate ++ " | cited-by: " ++ e.citedby ++
    "</span><br/><span>Author: " ++ e.creator ++ "</span><br/><span>Affiliation: " ++
    format_affiliation_one e.affiliation ++ "</span><br/><span>DOI: " ++ e.doi.trim ++
    "</span><br/>" ++ link_html ++ "</li>"

/-- The records actually itemized by `build_email_html`: the input sorted
newest cover date first (`sorted(..., key=parse_date, reverse=True)`) and then
capped to the first 40 (`entries_30d[:40]`). -/
def build_email_items (entries_30d : List Entry) : List Entry :=
  (py_sorted_desc entryLt entries_30d).take 40

/-- `build_email_html`: the full HTML document.  Sections for the trend
summary, the directions text and the new-since-last count are included only
when their input is truthy (nonempty). -/
def build_email_html (entries_30d : List Entry) (cutoff_yyyymmdd : String)
    (trend_summary directions_text : String) (new_since : List Entry) : String :=
  let trend_html :=
    if trend_summary = "" then ""
    else "<div style=\"padding:12px;border:1px solid #ddd;border-radius:8px;background:#fafafa;margin:12px 0;\"><b>30-Day Trend Summary</b><br/><span>" ++
      trend_summary ++ "</span></div>"
  let directions_html :=
    if directions_text = "" then ""
    else "<div style=\"padding:12px;border:1px solid #ddd;border-radius:8px;background:#f6fbff;margin:12px 0;\"><b>New Research Directions (Lab-Tailored)</b><br/><span style=\"white-space:pre-wrap;\">" ++
      directions_text ++ "</span></div>"
  let new_block :=
    if new_since = [] then ""
    else "<p><b>New since last weekly report:</b> " ++ toString new_since.length ++ " papers</p>"
  let items := (build_email_items entries_30d).map render_item
  "<html><body style=\"font-family: Arial, sans-serif;\"><h2>Weekly Scopus Monitor (Last 30 Days)</h2><p>Filter: <b>(" ++
    "QUERY_CORE" ++ ") AND ORIG-LOAD-DATE AFT " ++ cutoff_yyyymmdd ++ "</b></p>" ++
    new_block ++ trend_html ++ directions_html ++
    "<hr/><p><b>Papers (top 40 by latest coverDate)</b></p><ol>" ++
    String.intercalate "" items ++
    "</ol><hr/><p style=\"color:#777;font-size:12px;\">Auto-generated weekly report.</p></body></html>"

/-- JSON values, for the contents of `state.json`.  `save_state` writes the
state dict with `json.dump` and `load_state` reads it back with `json.load`;
that library round trip is modelled by the file holding the JSON value
itself. -/
inductive Json where
  | null : Json
  | str : String → Json
  | num : Int → Json
  | arr : List Json → Json
  | obj : List (String × Json) → Json

/-- The Notification State as the script uses it: the list of previously
notified EIDs and the last-report timestamp string. -/
structure PersistedState where
  notified_eids : List String
  last_report_kst : String
deriving DecidableEq

/-- Read a JSON string, failing on any other value. -/
def getStr : Json → Option String
  | .str s => some s
  | _ => none

/-- Read a list of JSON strings, failing if any element is not a string. -/
def getStrList : List Json → Option (List String)
  | [] => some []
  | j :: js =>
    match getStr j, getStrList js with
    | some s, some ss => some (s :: ss)
    | _, _ => none

/-- Decode a loaded state file into the shape `main` consumes.  A missing
`notified_eids` key defaults to `[]` (``state.get("notified_eids", [])``) and
a missing or non-string `last_report_kst` defaults to `""` (that key is only
ever written, never read).  A non-object file or a `notified_eids` value that
is not an array of strings makes `main` raise when it builds
`set(state["notified_eids"])`, modelled by `none`. -/
def decode_state : Json → Option PersistedState
  | .obj fields =>
    (match fields.lookup "notified_eids" with
     | none => some []
     | some (.arr xs) => getStrList xs
     | some _ => none).map
      (fun eids =>
        ⟨eids,
         match fields.lookup "last_report_kst" with
         | some (.str s) => s
         | _ => ""⟩)
  | _ => none

/-- `save_state(state)`: the JSON value written to `STATE_FILE`. -/
def save_state (st : PersistedState) : Json :=
  .obj [("notified_eids", .arr (st.notified_eids.map Json.str)),
        ("last_report_kst", .str st.last_report_kst)]

/-- `load_state()`: the default empty state when the file is absent, otherwise
the decoded file contents. -/
def load_state : Option Json → Option PersistedState
  | none => some ⟨[], ""⟩
  | some j => decode_state j

/-- `gemini_client()`: present exactly when `GEMINI_API_KEY` is nonempty. -/
def gemini_client (apiKey : String) : Option Unit :=
  if apiKey = "" then none else some ()

/-- One line of `build_metadata_context` for a record. -/
def metadata_line (e : Entry) : String :=
  "- Title: " ++ e.title ++ "\n  Author: " ++ e.creator ++
  "\n  Affiliation: " ++ format_affiliation_one e.affiliation ++
  "\n  Journal: " ++ e.publicationName ++ "\n  CoverDate: " ++ e.coverDate ++
  "\n  Keywords: " ++ e.authkeywords

/-- `build_metadata_context(entries, cap)`: the first `cap` records rendered
as metadata lines joined by newlines. -/
def build_metadata_context (entries : List Entry) (cap : Nat) : String :=
  String.intercalate "\n" ((entries.take cap).map metadata_line)

/-- `language.lower().startswith("ko")`. -/
def isKoLang (language : String) : Bool := language.toLower.startsWith "ko"

/-- The Korean trend prompt around its metadata context.  The literal Korean
instruction text of the source is abbreviated to a marker: no claim depends on
the prompt wording (the service outcome is universally quantified), only on
which context is embedded. -/
def trend_prompt_ko (context : String) : String :=
  "[ko trend-summary instructions]\n" ++ context ++ "\n"

/-- The English trend prompt around its metadata context. -/
def trend_prompt_en (context : String) : String :=
  "\nWrite ONE paragraph (5-7 sentences) trend summary based ONLY on the metadata below.\nInclude recurring themes, materials/process trends, and notable institutions/countries if clearly supported.\nDo not invent facts.\n\nMetadata:\n" ++
  context ++ "\n"

/-- The Korean research-directions prompt (instruction text abbreviated as in
`trend_prompt_ko`). -/
def directions_prompt_ko (lab_block context : String) : String :=
  "[ko research-directions instructions]\n" ++ lab_block ++ "\n" ++ context ++ "\n"

/-- The English research-directions prompt. -/
def directions_prompt_en (lab_block context : String) : String :=
  "\nPropose 5 research directions tailored to the lab context below, based ONLY on the last-30-days paper metadata.\n\nLab context:\n" ++
  lab_block ++
  "\n\nFor each direction include:\n- Title (<= 12 words)\n- Rationale grounded in metadata\n- Key hypothesis (1 sentence)\n- Minimal validation plan (2-3 tasks feasible for the lab)\n- Expected impact\n- Risks + mitigation (1-2 bullets)\n\nDo not invent facts not supported by metadata.\n\nMetadata:\n" ++
  context ++ "\n"

/-- `generate_trend_summary(entries_30d, language)`.  `svc` models
`client.models.generate_content`: `.error` is a raised exception (caught, the
function returns `""`), `.ok t` a response whose `.text` is `t` (`none` is a
`None` text, turned into `""` by `(resp.text or "").strip()`). -/
def generate_trend_summary (apiKey : String) (entries_30d : List Entry)
    (svc : String → Except String (Option String)) (language : String) : String :=
  match gemini_client apiKey with
  | none => ""
  | some _ =>
    if entries_30d = [] then ""
    else
      let context := build_metadata_context entries_30d 60
      let prompt :=
        if isKoLang language then trend_prompt_ko context else trend_prompt_en context
      match svc prompt with
      | .ok t => (t.getD "").trim
      | .error _ => ""

/-- `generate_research_directions(entries_30d, lab_context, language)`, with
the same service model as `generate_trend_summary` and the placeholder lab
block when no lab context is configured. -/
def generate_research_directions (apiKey : String) (entries_30d : List Entry)
    (lab_context : String) (svc : String → Except String (Option String))
    (language : String) : String :=
  match gemini_client apiKey with
  | none => ""
  | some _ =>
    if entries_30d = [] then ""
    else
      let context := build_metadata_context entries_30d 60
      let lab_block :=
        if lab_context = "" then
          "(Lab context not provided. Provide feasible directions with common AM/superalloy lab capabilities.)"
        else lab_context
      let prompt :=
        if isKoLang language then directions_prompt_ko lab_block context
        else directions_prompt_en lab_block context
      match svc prompt with
      | .ok t => (t.getD "").trim
      | .error _ => ""

/-- The `new_since_last` computation of `main`:
`[e for e in entries_30d if e.get("eid") and e["eid"] not in notified]`. -/
def new_since_last (notified : List String) (entries_30d : List Entry) : List Entry :=
  entries_30d.filter (fun e => !(e.eid == "") && !(notified.contains e.eid))

/-- The state-update loop of `main`: add every truthy EID of the report to the
`notified` set (`set.add`, modelled by `List.insert` on a deduplicated
list). -/
def add_eids (notified : List String) (entries : List Entry) : List String :=
  entries.foldl (fun acc e => if e.eid = "" then acc else acc.insert e.eid) notified

/-- String comparison used by Python's `sorted` on EID strings. -/
def strLt (a b : String) : Bool := decide (a < b)

/-- Deduplicate a string list (the membership semantics of building a Python
`set` from it; the order is irrelevant because the result is only ever used
under `sorted`). -/
def dedupStr : List String → List String
  | [] => []
  | x :: xs => if x ∈ dedupStr xs then dedupStr xs else x :: dedupStr xs

/-- `sorted(list(notified))` after the EID-adding loop of `main`:
`set(state.get("notified_eids", []))` is modelled by `dedup`. -/
def update_notified (notified : List String) (entries : List Entry) : List String :=
  binInsertSort strLt (add_eids (dedupStr notified) entries)

/-- The external collaborators and run-dependent values of one `main` run:
the Scopus server, the Gemini configuration and service, the lab context, the
SMTP send outcome, and the formatted KST timestamps `main` computes at start
(`kst_now`, the 30-day cutoff, today's date label). -/
structure RunEnv where
  server : Nat → Response
  geminiKey : String
  labContext : String
  svc : String → Except String (Option String)
  send : String → String → Except String Unit
  nowKst : String
  cutoff : String
  todayKst : String

/-- One run of `main`, returning the process outcome (`.error` = unhandled
exception, non-zero exit) and the state file afterwards.  Mirrors `main`'s
order: load state, build the notified set (a malformed state file raises
here), fetch, compute `new_since_last`, produce the two Gemini texts, render,
send, and only then update and save the state.  CSV snapshots touch separate
files and are not part of the Notification State. -/
def main_run (env : RunEnv) (stateFile : Option Json) :
    Except String Unit × Option Json :=
  match load_state stateFile with
  | none => (.error "invalid state file", stateFile)
  | some st =>
    match scopus_search_all env.server with
    | .error msg => (.error msg, stateFile)
    | .ok entries_30d =>
      let notified := st.notified_eids
      let new_since := new_since_last notified entries_30d
      let trend := generate_trend_summary env.geminiKey entries_30d env.svc "ko"
      let directions :=
        generate_research_directions env.geminiKey entries_30d env.labContext env.svc "ko"
      let subject := "[Weekly Scopus] 30-day trends + directions (" ++ env.todayKst ++ ")"
      let html := build_email_html entries_30d env.cutoff trend directions new_since
      match env.send subject html with
      | .error msg => (.error msg, stateFile)
      | .ok _ =>
        (.ok (), some (save_state ⟨update_notified notified entries_30d, env.nowKst⟩))

/-- Build a record with the given EID and cover date (remaining metadata
fixed); used to exercise the theorems on concrete inputs. -/
def mkEntry (eid cover : String) : Entry :=
  ⟨eid, "title", "author", cover, "journal", "", "0", "", ""⟩

/-- Concrete record with EID `A`. -/
def entA : Entry := mkEntry "A" "2026-01-03"

/-- Concrete record with EID `B`. -/
def entB : Entry := mkEntry "B" "2026-01-02"

/-- Concrete record with EID `C`. -/
def entC : Entry := mkEntry "C" "2026-01-01"

/-- A second, different record carrying the duplicate EID `A`. -/
def entA2 : Entry := mkEntry "A" "2025-12-31"

/-- A record whose `eid` field is absent/empty. -/
def entNoEid : Entry := mkEntry "" "2026-01-04"

/-- Record with a valid 2024 cover date (for the rendering-order analysis). -/
def entOld : Entry := mkEntry "X" "2024-01-01"

/-- Record with a missing cover date (parses to `pd.NaT`). -/
def entNaT : Entry := mkEntry "Y" ""

/-- Record with a valid 2025 cover date. -/
def entNew : Entry := mkEntry "Z" "2025-01-01"

/-- A server whose every page is empty (0 results). -/
def server_empty : Nat → Response := fun _ => ⟨200, "", 0, []⟩

/-- Like `server_empty` but advertising a different total on every page after
the first. -/
def server_tot : Nat → Response :=
  fun start => ⟨200, "", if start = 0 then 0 else 99, []⟩

/-- A server answering every request with HTTP 500. -/
def server_err : Nat → Response := fun _ => ⟨500, "Internal Server Error", 0, []⟩

/-- A server returning records `A, B, C` on the first page (total 3). -/
def server_abc : Nat → Response :=
  fun start => if start = 0 then ⟨200, "", 3, [entA, entB, entC]⟩ else ⟨200, "", 3, []⟩

/-- A Gemini service model that always raises. -/
def svc_err : String → Except String (Option String) := fun _ => .error "quota exceeded"

/-- An SMTP send that succeeds. -/
def send_ok : String → String → Except String Unit := fun _ _ => .ok ()

/-- An SMTP send that raises. -/
def send_err : String → String → Except String Unit := fun _ _ => .error "SMTP auth failed"

/-- A run environment whose fetch succeeds (records `A, B, C`) and whose send
succeeds. -/
def env_ok : RunEnv :=
  ⟨server_abc, "", "", svc_err, send_ok, "2026-10-12 08:00:00 KST", "20260912", "20261012"⟩

/-- A run environment whose Scopus fetch fails with HTTP 500. -/
def env_fetch_err : RunEnv :=
  ⟨server_err, "", "", svc_err, send_ok, "2026-10-12 08:00:00 KST", "20260912", "20261012"⟩

/-- A run environment whose email send raises. -/
def env_send_err : RunEnv :=
  ⟨server_abc, "", "", svc_err, send_err, "2026-10-12 08:00:00 KST", "20260912", "20261012"⟩

/-! ## Deduplication lemmas (claims C1, C4, C10) -/

theorem dedupGo_sublist (rows : List Entry) (seen : List String) :
    List.Sublist (dedupGo rows seen) rows := by
  induction rows generalizing seen with
  | nil => simp [dedupGo]
  | cons e es ih =>
    rw [dedupGo]
    split
    · exact (ih seen).cons e
    · exact (ih (e.eid :: seen)).cons₂ e

theorem mem_dedupGo {rows : List Entry} {seen : List String} {e : Entry}
    (h : e ∈ dedupGo rows seen) : e ∈ rows ∧ e.eid ≠ "" ∧ e.eid ∉ seen := by
  induction rows generalizing seen with
  | nil => simp [dedupGo] at h
  | cons r rs ih =>
    rw [dedupGo] at h
    split at h
    · rcases ih h with ⟨h1, h2, h3⟩
      exact ⟨List.mem_cons_of_mem _ h1, h2, h3⟩
    · rename_i hkeep
      push_neg at hkeep
      rcases List.mem_cons.mp h with rfl | h'
      · exact ⟨List.mem_cons_self .., hkeep.1, hkeep.2⟩
      · rcases ih h' with ⟨h1, h2, h3⟩
        refine ⟨List.mem_cons_of_mem _ h1, h2, fun hc => h3 ?_⟩
        exact List.mem_cons_of_mem _ hc

theorem dedupGo_eids_nodup (rows : List Entry) (seen : List String) :
    ((dedupGo rows seen).map Entry.eid).Nodup := by
  induction rows generalizing seen with
  | nil => simp [dedupGo]
  | cons r rs ih =>
    rw [dedupGo]
    split
    · exact ih seen
    · refine List.nodup_cons.mpr ⟨?_, ih (r.eid :: seen)⟩
      intro hmem
      rcases List.mem_map.mp hmem with ⟨e, he, heid⟩
      exact (mem_dedupGo he).2.2 (heid ▸ List.mem_cons_self ..)

theorem dedupGo_covers {rows : List Entry} {seen : List String} {e : Entry}
    (h : e ∈ rows) (h1 : e.eid ≠ "") (h2 : e.eid ∉ seen) :
    ∃ e', e' ∈ dedupGo rows seen ∧ e'.eid = e.eid := by
  induction rows generalizing seen with
  | nil => simp at h
  | cons r rs ih =>
    rw [dedupGo]
    split
    · rename_i hskip
      rcases List.mem_cons.mp h with rfl | h'
      · rcases hskip with hc | hc
        · exact absurd hc h1
        · exact absurd hc h2
      · exact ih h' h2
    · by_cases heq : e.eid = r.eid
      · exact ⟨r, List.mem_cons_self .., heq.symm⟩
      · rcases List.mem_cons.mp h with rfl | h'
        · exact absurd rfl heq
        · rcases ih h' (fun hc => by
            rcases List.mem_cons.mp hc with hc' | hc'
            · exact heq hc'
            · exact h2 hc') with ⟨e', he', heid⟩
          exact ⟨e', List.mem_cons_of_mem _ he', heid⟩

theorem dedupGo_first {rows : List Entry} {seen : List String} {e' : Entry}
    (h : e' ∈ dedupGo rows seen) :
    rows.find? (fun e => e.eid == e'.eid) = some e' := by
  induction rows generalizing seen with
  | nil => simp [dedupGo] at h
  | cons r rs ih =>
    rw [dedupGo] at h
    split at h
    · rename_i hskip
      have hne : r.eid ≠ e'.eid := by
        rcases mem_dedupGo h with ⟨_, h2, h3⟩
        rcases hskip with hc | hc
        · exact fun hcc => h2 (hcc ▸ hc)
        · exact fun hcc => h3 (hcc ▸ hc)
      rw [List.find?_cons_of_neg _ (by simpa using hne)]
      exact ih h
    · rcases List.mem_cons.mp h with rfl | h'
      · rw [List.find?_cons_of_pos _ (by simp)]
      · have hne : r.eid ≠ e'.eid := by
          have := (mem_dedupGo h').2.2
          exact fun hcc => this (hcc ▸ List.mem_cons_self ..)
        rw [List.find?_cons_of_neg _ (by simpa using hne)]
        exact ih h'

/-- C1: `scopus_search_all`'s returned record list is deduplicated by EID —
the returned EIDs are pairwise distinct (also whenever the fetch succeeds at
the top level), the output is an order-preserving subselection of the
accumulated upstream rows, every nonempty EID of the input survives, and each
returned record is exactly the *first* occurrence of its EID in the upstream
row order — for every input, including pages with overlapping records. -/
theorem scopus_dedup_first_occurrence_order_preserving (rows : List Entry) :
    ((dedup_by_eid rows).map Entry.eid).Nodup
    ∧ List.Sublist (dedup_by_eid rows) rows
    ∧ (∀ e ∈ rows, e.eid ≠ "" → ∃ e', e' ∈ dedup_by_eid rows ∧ e'.eid = e.eid)
    ∧ (∀ e' ∈ dedup_by_eid rows, rows.find? (fun e => e.eid == e'.eid) = some e')
    ∧ (∀ server es, scopus_search_all server = .ok es → (es.map Entry.eid).Nodup) := by
  refine ⟨dedupGo_eids_nodup rows [], dedupGo_sublist rows [],
    fun e he h1 => dedupGo_covers he h1 (by simp),
    fun e' he' => dedupGo_first he', fun server es hok => ?_⟩
  unfold scopus_search_all at hok
  cases hfetch : scopus_fetch_rows server with
  | error msg => rw [hfetch] at hok; simp [Except.map] at hok
  | ok rows' =>
    rw [hfetch] at hok
    simp only [Except.map, Except.ok.injEq] at hok
    exact hok ▸ dedupGo_eids_nodup rows' []

/-- C1 witness: the deduplication properties at a concrete row list containing
a duplicated EID `A` and a record with an empty EID. -/
theorem scopus_dedup_witness :
    entA ∈ [entA, entB, entA2, entNoEid, entC]
    ∧ ((dedup_by_eid [entA, entB, entA2, entNoEid, entC]).map Entry.eid).Nodup
    ∧ [entA, entB, entA2, entNoEid, entC].find? (fun e => e.eid == entA.eid) = some entA := by
  refine ⟨by decide, (scopus_dedup_first_occurrence_order_preserving _).1, ?_⟩
  exact (scopus_dedup_first_occurrence_order_preserving
    [entA, entB, entA2, entNoEid, entC]).2.2.2.1 entA (by decide)

/-! ## Pagination lemmas (claims C2, C3) -/

theorem fetchRest_empty_page (server : Nat → Response) (total start : Nat)
    (rows : List Entry) (hst : (server start).status = 200)
    (hemp : (server start).entry = []) :
    fetchRest server total start rows = .ok rows := by
  rw [fetchRest.eq_def]
  simp [hst, hemp]

theorem fetchRest_bad_status (server : Nat → Response) (total start : Nat)
    (rows : List Entry) (hst : (server start).status ≠ 200) :
    fetchRest server total start rows = .error (scopusErr (server start)) := by
  rw [fetchRest.eq_def]
  simp [hst]

theorem fetchRest_congr (s₁ s₂ : Nat → Response)
    (hst : ∀ n, (s₁ n).status = (s₂ n).status)
    (htx : ∀ n, (s₁ n).text = (s₂ n).text)
    (hen : ∀ n, (s₁ n).entry = (s₂ n).entry) :
    ∀ (total : Nat) (rows : List Entry) (start : Nat),
      fetchRest s₁ total start rows = fetchRest s₂ total start rows := by
  have H : ∀ (n total : Nat) (rows : List Entry) (start : Nat),
      total - rows.length = n →
      fetchRest s₁ total start rows = fetchRest s₂ total start rows := by
    intro n
    induction n using Nat.strong_induction_on with
    | _ n ih =>
      intro total rows start hn
      conv_lhs => rw [fetchRest.eq_def]
      conv_rhs => rw [fetchRest.eq_def]
      simp only [scopusErr, hst start, htx start, hen start]
      split
      · rfl
      split
      · rfl
      split
      · rfl
      · rename_i hok hne hcap
        have hpos : 0 < (s₂ start).entry.length := List.length_pos.mpr hne
        refine ih (total - (rows ++ (s₂ start).entry).length) ?_ total _ (start + 25) rfl
        simp only [List.length_append] at hcap ⊢
        omega
  intro total rows start
  exact H (total - rows.length) total rows start rfl

/-- C2: the pagination loop halts as soon as a page comes back with zero
entries — from the very first page (second conjunct) or any later offset
(first conjunct), for *every* `total` bound and accumulated row count, i.e.
also when the advertised total was never reached.  Moreover the
`opensearch:totalResults` fields of all pages after the first are never
consulted: two servers that agree on statuses, bodies and entries everywhere,
and on the advertised total of the first page only, produce identical results
(the total is captured once and serves only as the secondary termination
bound).  Termination itself holds unconditionally: `fetchRest` is a total
function (each continuing iteration strictly grows `rows` toward the fixed
`total`, and every other branch stops). -/
theorem pagination_stops_on_empty_page :
    (∀ (server : Nat → Response) (total start : Nat) (rows : List Entry),
       (server start).status = 200 → (server start).entry = [] →
       fetchRest server total start rows = .ok rows)
    ∧ (∀ server : Nat → Response, (server 0).status = 200 → (server 0).entry = [] →
        scopus_search_all server = .ok [])
    ∧ (∀ s₁ s₂ : Nat → Response,
        (∀ n, (s₁ n).status = (s₂ n).status) →
        (∀ n, (s₁ n).text = (s₂ n).text) →
        (∀ n, (s₁ n).entry = (s₂ n).entry) →
        (s₁ 0).total = (s₂ 0).total →
        scopus_search_all s₁ = scopus_search_all s₂) := by
  refine ⟨fun server total start rows hst hemp =>
    fetchRest_empty_page server total start rows hst hemp,
    fun server hst hemp => ?_, fun s₁ s₂ hst htx hen htot => ?_⟩
  · unfold scopus_search_all scopus_fetch_rows
    simp [hst, hemp, dedup_by_eid, dedupGo, Except.map]
  · unfold scopus_search_all scopus_fetch_rows
    simp only [scopusErr, hst 0, htx 0, hen 0, htot]
    split
    · rfl
    split
    · rfl
    split
    · rfl
    · rw [fetchRest_congr s₁ s₂ hst htx hen]

/-- C2 witness: a page with zero entries stops the loop although only 1 of the
advertised 7 records was accumulated; and a server that advertises a different
total on later pages is indistinguishable from one that does not. -/
theorem pagination_stops_witness :
    fetchRest server_empty 7 25 [entA] = .ok [entA]
    ∧ scopus_search_all server_empty = scopus_search_all server_tot := by
  refine ⟨pagination_stops_on_empty_page.1 server_empty 7 25 [entA] rfl rfl,
    pagination_stops_on_empty_page.2.2 server_empty server_tot
      (fun n => rfl) (fun n => rfl) (fun n => rfl) rfl⟩

/-- C3: a non-success HTTP status on any page request — the first (second
conjunct) or any later one (first conjunct) — makes the fetch fail
immediately with the fatal `RuntimeError` message carrying the status code
and the response body truncated to 900 characters; the `.error` result
carries no partial rows, and no branch of `fetchRest` re-requests the same
offset (no retry). -/
theorem scopus_non_success_aborts :
    (∀ (server : Nat → Response) (total start : Nat) (rows : List Entry),
       (server start).status ≠ 200 →
       fetchRest server total start rows = .error (scopusErr (server start)))
    ∧ (∀ server : Nat → Response, (server 0).status ≠ 200 →
        scopus_search_all server = .error (scopusErr (server 0)))
    ∧ (∀ r : Response,
        scopusErr r = "Scopus API error " ++ toString r.status ++ ": " ++ r.text.take 900) := by
  refine ⟨fun server total start rows hst =>
    fetchRest_bad_status server total start rows hst, fun server hst => ?_, fun r => rfl⟩
  unfold scopus_search_all scopus_fetch_rows
  simp [hst, Except.map]

/-- C3 witness: the concrete HTTP-500 server aborts the whole fetch with the
formatted fatal message. -/
theorem scopus_non_success_witness :
    scopus_search_all server_err = .error (scopusErr (server_err 0))
    ∧ fetchRest server_err 99 50 [entA] = .error (scopusErr (server_err 50)) := by
  exact ⟨scopus_non_success_aborts.2.1 server_err (by decide),
    scopus_non_success_aborts.1 server_err 99 50 [entA] (by decide)⟩

/-! ## Binary-insertion-sort lemmas (claims C7, C9) -/

theorem insertAt_eq_take_drop (n : Nat) (x : α) (l : List α) :
    insertAt n x l = l.take n ++ x :: l.drop n := by
  induction n generalizing l with
  | zero => simp [insertAt]
  | succ n ih =>
    cases l with
    | nil => simp [insertAt]
    | cons a as => simp [insertAt, ih]

theorem mem_insertAt {y x : α} {n : Nat} {l : List α} :
    y ∈ insertAt n x l ↔ y = x ∨ y ∈ l := by
  rw [insertAt_eq_take_drop]
  simp only [List.mem_append, List.mem_cons]
  constructor
  · rintro (h | h | h)
    · exact Or.inr ((List.take_sublist n l).subset h)
    · exact Or.inl h
    · exact Or.inr ((List.drop_sublist n l).subset h)
  · rintro (rfl | h)
    · exact Or.inr (Or.inl rfl)
    · have := (List.take_append_drop n l).symm ▸ h
      rcases List.mem_append.mp this with h' | h'
      · exact Or.inl h'
      · exact Or.inr (Or.inr h')

theorem bisect_spec {β : Type} [LinearOrder β] (k : α → β) (lt : α → α → Bool)
    (hlt : ∀ a b, lt a b = decide (k a < k b)) (x : α) (acc : List α)
    (hsort : acc.Pairwise (fun a b => k a ≤ k b)) :
    ∀ (fuel lo r : Nat), r ≤ acc.length → r ≤ lo + fuel →
      (∀ (i : Nat) (hi : i < acc.length), i < lo → k acc[i] ≤ k x) →
      (∀ (i : Nat) (hi : i < acc.length), r ≤ i → k x < k acc[i]) →
      (∀ (i : Nat) (hi : i < acc.length),
         i < bisect lt x acc fuel lo r → k acc[i] ≤ k x)
      ∧ (∀ (i : Nat) (hi : i < acc.length),
         bisect lt x acc fuel lo r ≤ i → k x < k acc[i]) := by
  intro fuel
  induction fuel with
  | zero =>
    intro lo r hr hfuel hlo hhi
    refine ⟨fun i hi hip => hlo i hi (by simpa [bisect] using hip), ?_⟩
    intro i hi hpi
    exact hhi i hi (by simp only [bisect] at hpi; omega)
  | succ fuel ih =>
    intro lo r hr hfuel hlo hhi
    by_cases hlr : lo < r
    · have hmidlt : (lo + r) / 2 < r := by omega
      have hmidge : lo ≤ (lo + r) / 2 := by omega
      have hmlen : (lo + r) / 2 < acc.length := lt_of_lt_of_le hmidlt hr
      have hacc : acc.getD ((lo + r) / 2) x = acc[(lo + r) / 2] :=
        List.getD_eq_getElem acc x hmlen
      rw [show bisect lt x acc (fuel + 1) lo r
          = if decide (k x < k acc[(lo + r) / 2]) then
              bisect lt x acc fuel lo ((lo + r) / 2)
            else
              bisect lt x acc fuel ((lo + r) / 2 + 1) r from by
        simp only [bisect, hlr, if_true, hacc, hlt]]
      by_cases hc : k x < k acc[(lo + r) / 2]
      · rw [decide_eq_true hc]
        simp only [if_true]
        refine ih lo ((lo + r) / 2) (le_of_lt hmlen) (by omega) hlo ?_
        intro i hi hmi
        rcases eq_or_lt_of_le hmi with rfl | hlt
        · exact hc
        · exact lt_of_lt_of_le hc
            (List.pairwise_iff_getElem.mp hsort _ i hmlen hi hlt)
      · rw [decide_eq_false hc]
        simp only [Bool.false_eq_true, if_false]
        refine ih ((lo + r) / 2 + 1) r hr (by omega) ?_ hhi
        intro i hi hilt
        have hmx : k acc[(lo + r) / 2] ≤ k x := le_of_not_lt hc
        rcases Nat.lt_succ_iff_lt_or_eq.mp hilt with hlt | rfl
        · exact le_trans (List.pairwise_iff_getElem.mp hsort i _ hi hmlen hlt) hmx
        · exact hmx
    · refine ⟨fun i hi hip => hlo i hi (by simpa [bisect, hlr] using hip), ?_⟩
      intro i hi hpi
      simp only [bisect, hlr, if_false] at hpi
      exact hhi i hi (by omega)

theorem insertAt_bisect_pairwise {β : Type} [LinearOrder β] (k : α → β) (lt : α → α → Bool)
    (hlt : ∀ a b, lt a b = decide (k a < k b)) (x : α)
    (acc : List α) (hsort : acc.Pairwise (fun a b => k a ≤ k b)) :
    (insertAt (bisect lt x acc acc.length 0 acc.length)
        x acc).Pairwise (fun a b => k a ≤ k b) := by
  obtain ⟨h1, h2⟩ := bisect_spec k lt hlt x acc hsort acc.length 0 acc.length le_rfl
    (by omega) (fun i hi hip => absurd hip (Nat.not_lt_zero i))
    (fun i hi hri => absurd hi (by omega))
  rw [insertAt_eq_take_drop]
  rw [List.pairwise_append]
  refine ⟨hsort.sublist (List.take_sublist _ _), ?_, ?_⟩
  · rw [List.pairwise_cons]
    refine ⟨?_, hsort.sublist (List.drop_sublist _ _)⟩
    intro b hb
    obtain ⟨j, hj, hbj⟩ := List.mem_iff_getElem.mp hb
    have hlen : (acc.drop (bisect lt x acc
        acc.length 0 acc.length)).length = acc.length -
        bisect lt x acc acc.length 0 acc.length := by
      simp
    have hjlt : bisect lt x acc acc.length 0 acc.length + j < acc.length := by omega
    have hbj' : b = acc[bisect lt x acc acc.length 0 acc.length + j] := by
      rw [← hbj, List.getElem_drop]
    exact le_of_lt (hbj' ▸ h2 _ hjlt (Nat.le_add_right _ _))
  · intro a ha b hb
    obtain ⟨i, hi, hai⟩ := List.mem_iff_getElem.mp ha
    have hitake : i < acc.length ∧
        i < bisect lt x acc acc.length 0 acc.length := by
      simp only [List.length_take, lt_min_iff] at hi
      omega
    have hi1 : i < acc.length := hitake.1
    have hai' : a = acc[i] := by
      rw [← hai, List.getElem_take]
    have hax : k a ≤ k x := hai' ▸ h1 i hi1 hitake.2
    rcases List.mem_cons.mp hb with rfl | hb'
    · exact hax
    · obtain ⟨j, hj, hbj⟩ := List.mem_iff_getElem.mp hb'
      have hjlt : bisect lt x acc acc.length 0 acc.length + j < acc.length := by
        simp at hj
        omega
      have hbj' : b = acc[bisect lt x acc acc.length 0 acc.length + j] := by
        rw [← hbj, List.getElem_drop]
      exact le_trans hax (le_of_lt (hbj' ▸ h2 _ hjlt (Nat.le_add_right _ _)))

theorem binInsertSortAux_pairwise {β : Type} [LinearOrder β] (k : α → β)
    (lt : α → α → Bool) (hlt : ∀ a b, lt a b = decide (k a < k b)) :
    ∀ (xs acc : List α), acc.Pairwise (fun a b => k a ≤ k b) →
      (binInsertSortAux lt xs acc).Pairwise
        (fun a b => k a ≤ k b) := by
  intro xs
  induction xs with
  | nil => intro acc h; exact h
  | cons x xs ih =>
    intro acc h
    rw [binInsertSortAux]
    exact ih _ (insertAt_bisect_pairwise k lt hlt x acc h)

theorem mem_binInsertSortAux (lt : α → α → Bool) :
    ∀ (xs acc : List α) (y : α), y ∈ binInsertSortAux lt xs acc ↔ y ∈ xs ∨ y ∈ acc := by
  intro xs
  induction xs with
  | nil => simp [binInsertSortAux]
  | cons x xs ih =>
    intro acc y
    rw [binInsertSortAux, ih, mem_insertAt]
    simp only [List.mem_cons]
    tauto

theorem bisect_congr (lt lt' : α → α → Bool) (x : α) (l : List α)
    (h : ∀ y ∈ l, lt x y = lt' x y) :
    ∀ (fuel lo r : Nat), r ≤ l.length → bisect lt x l fuel lo r = bisect lt' x l fuel lo r := by
  intro fuel
  induction fuel with
  | zero => intro lo r _; rfl
  | succ fuel ih =>
    intro lo r hr
    by_cases hlr : lo < r
    · have hmlen : (lo + r) / 2 < l.length := by omega
      have hmem : l.getD ((lo + r) / 2) x ∈ l := by
        rw [List.getD_eq_getElem l x hmlen]
        exact List.getElem_mem hmlen
      simp only [bisect, hlr, if_true, h _ hmem]
      by_cases hc : lt' x (l.getD ((lo + r) / 2) x) = true
      · simp only [hc, if_true]
        exact ih lo ((lo + r) / 2) (by omega)
      · simp only [Bool.not_eq_true] at hc
        simp only [hc, Bool.false_eq_true, if_false]
        exact ih ((lo + r) / 2 + 1) r hr
    · simp [bisect, hlr]

theorem binInsertSortAux_congr (lt lt' : α → α → Bool) :
    ∀ (xs acc : List α),
      (∀ a b, (a ∈ xs ∨ a ∈ acc) → (b ∈ xs ∨ b ∈ acc) → lt a b = lt' a b) →
      binInsertSortAux lt xs acc = binInsertSortAux lt' xs acc := by
  intro xs
  induction xs with
  | nil => intro acc _; rfl
  | cons x xs ih =>
    intro acc h
    rw [binInsertSortAux, binInsertSortAux]
    rw [bisect_congr lt lt' x acc
      (fun y hy => h x y (Or.inl (List.mem_cons_self ..)) (Or.inr hy))
      acc.length 0 acc.length le_rfl]
    apply ih
    intro a b ha hb
    refine h a b ?_ ?_
    · rcases ha with ha | ha
      · exact Or.inl (List.mem_cons_of_mem _ ha)
      · rcases mem_insertAt.mp ha with rfl | ha'
        · exact Or.inl (List.mem_cons_self ..)
        · exact Or.inr ha'
    · rcases hb with hb | hb
      · exact Or.inl (List.mem_cons_of_mem _ hb)
      · rcases mem_insertAt.mp hb with rfl | hb'
        · exact Or.inl (List.mem_cons_self ..)
        · exact Or.inr hb'

/-! ## Rendering order (claim C7) -/

/-- C7 counterexample: on the three records `entOld` (cover date 2024-01-01),
`entNaT` (missing cover date, i.e. `pd.NaT`) and `entNew` (2025-01-01), in
that input order, `build_email_html` itemizes them *unchanged*: the `NaT` key
compares `False` in both directions, CPython's stable sort therefore treats it
as tied with every neighbour, and the claimed order "cover date descending
with unparsable dates last" — which would be `[entNew, entOld, entNaT]` —
is not produced; even the two valid dates stay ascending. -/
theorem build_email_order_counterexample :
    build_email_items [entOld, entNaT, entNew] = [entOld, entNaT, entNew]
    ∧ parse_date entOld = some 20240101
    ∧ parse_date entNaT = none
    ∧ parse_date entNew = some 20250101
    ∧ build_email_items [entOld, entNaT, entNew] ≠ [entNew, entOld, entNaT] := by
  decide

/-- C7 as amended: `build_email_html` itemizes at most 40 records for every
input (the cap holds even for 100 records), and never raises (all functions
involved are total); when every input record has a parsable cover date the
itemized records are ordered by cover date descending.  Records with
unparsable or missing cover dates, however, are *not* sorted after the valid
ones: their `NaT` key compares `False` against everything, so the stable sort
leaves them where adjacent comparisons put them, possibly interleaved with —
and disordering — the valid dates (see the counterexample). -/
theorem build_email_cap_and_valid_order :
    (∀ entries_30d : List Entry, (build_email_items entries_30d).length ≤ 40)
    ∧ (∀ entries_30d : List Entry, (∀ e ∈ entries_30d, (parse_date e).isSome) →
        (build_email_items entries_30d).Pairwise (fun a b => pkey b ≤ pkey a)) := by
  constructor
  · intro entries_30d
    exact List.length_take_le 40 _
  · intro entries_30d hvalid
    have hcong : binInsertSortAux entryLt entries_30d.reverse [] =
        binInsertSortAux (fun a b => decide (pkey a < pkey b)) entries_30d.reverse [] := by
      apply binInsertSortAux_congr
      intro a b ha hb
      have ha' : a ∈ entries_30d := by
        rcases ha with ha | ha
        · exact List.mem_reverse.mp ha
        · simp at ha
      have hb' : b ∈ entries_30d := by
        rcases hb with hb | hb
        · exact List.mem_reverse.mp hb
        · simp at hb
      obtain ⟨xa, hxa⟩ := Option.isSome_iff_exists.mp (hvalid a ha')
      obtain ⟨xb, hxb⟩ := Option.isSome_iff_exists.mp (hvalid b hb')
      simp [entryLt, optLt, pkey, hxa, hxb]
    have hp := binInsertSortAux_pairwise pkey (fun a b => decide (pkey a < pkey b))
      (fun a b => rfl) entries_30d.reverse [] List.Pairwise.nil
    have hd : (py_sorted_desc entryLt entries_30d).Pairwise (fun a b => pkey b ≤ pkey a) := by
      unfold py_sorted_desc binInsertSort
      rw [hcong]
      exact List.pairwise_reverse.mpr hp
    exact hd.sublist (List.take_sublist _ _)

/-- C7 witness for the amended theorem: two records with valid cover dates
come out newest-first. -/
theorem build_email_valid_order_witness :
    (∀ e ∈ [entOld, entNew], (parse_date e).isSome)
    ∧ (build_email_items [entOld, entNew]).Pairwise (fun a b => pkey b ≤ pkey a) :=
  ⟨by decide, build_email_cap_and_valid_order.2 [entOld, entNew] (by decide)⟩

/-! ## New-since-last (claim C4) -/

/-- C4: for every fetched record set produced by `scopus_search_all` and every
loaded notified set, `main`'s `new_since_last` list is exactly the fetched
records whose EID is not in the notified set (the extra `e.get("eid")`
truthiness test is redundant there, because the fetch already dropped
EID-less records); in particular, with prior state `{A, B}` and fetched
records `A, B, C` it is exactly `[C]`. -/
theorem main_new_since_last_exact :
    (∀ (server : Nat → Response) (notified : List String) (entries_30d : List Entry),
       scopus_search_all server = .ok entries_30d →
       new_since_last notified entries_30d
         = entries_30d.filter (fun e => !(notified.contains e.eid)))
    ∧ new_since_last ["A", "B"] [entA, entB, entC] = [entC] := by
  constructor
  · intro server notified entries hok
    have hmem : ∀ e ∈ entries, e.eid ≠ "" := by
      unfold scopus_search_all at hok
      cases hfetch : scopus_fetch_rows server with
      | error msg => rw [hfetch] at hok; simp [Except.map] at hok
      | ok rows =>
        rw [hfetch] at hok
        simp only [Except.map, Except.ok.injEq] at hok
        intro e he
        have he' : e ∈ dedup_by_eid rows := hok ▸ he
        exact (mem_dedupGo (by simpa [dedup_by_eid] using he')).2.1
    unfold new_since_last
    apply List.filter_congr
    intro e he
    have hne := hmem e he
    simp [hne]
  · decide

/-- C4 witness: the concrete two-identifier prior state against the concrete
three-record fetch. -/
theorem main_new_since_last_witness :
    scopus_search_all server_abc = .ok [entA, entB, entC]
    ∧ new_since_last ["A", "B"] [entA, entB, entC]
        = [entA, entB, entC].filter (fun e => !(["A", "B"].contains e.eid)) :=
  ⟨rfl, main_new_since_last_exact.1 server_abc ["A", "B"] [entA, entB, entC] rfl⟩

/-! ## State round trip (claim C5) -/

theorem getStrList_str (l : List String) : getStrList (l.map Json.str) = some l := by
  induction l with
  | nil => rfl
  | cons a as ih => simp [getStrList, getStr, ih]

/-- C5: saving any state and loading it back succeeds and yields the same
identifier set (here even the same list) and the same last-report timestamp
string. -/
theorem state_round_trip (st : PersistedState) :
    ∃ st', load_state (some (save_state st)) = some st'
      ∧ (∀ x : String, x ∈ st'.notified_eids ↔ x ∈ st.notified_eids)
      ∧ st'.last_report_kst = st.last_report_kst := by
  refine ⟨st, ?_, fun x => Iff.rfl, rfl⟩
  simp [load_state, save_state, decode_state, List.lookup, getStrList_str]

/-! ## Summarization degrades, never aborts (claim C6) -/

/-- C6: both Gemini adapters return exactly the empty string — without
raising, as they are total Lean functions — when the service credential is
absent or the input record list is empty; and when the service call raises
(any error outcome), the exception is swallowed and the empty string is
returned, so summarization failure cannot abort the run. -/
theorem summarization_never_aborts :
    (∀ (entries : List Entry) (svc : String → Except String (Option String)) (lang : String),
       generate_trend_summary "" entries svc lang = "")
    ∧ (∀ (key : String) (svc : String → Except String (Option String)) (lang : String),
        generate_trend_summary key [] svc lang = "")
    ∧ (∀ (key : String) (entries : List Entry)
        (svc : String → Except String (Option String)) (lang : String),
        (∀ p, ∃ m, svc p = .error m) → generate_trend_summary key entries svc lang = "")
    ∧ (∀ (entries : List Entry) (lab : String)
        (svc : String → Except String (Option String)) (lang : String),
        generate_research_directions "" entries lab svc lang = "")
    ∧ (∀ (key lab : String) (svc : String → Except String (Option String)) (lang : String),
        generate_research_directions key [] lab svc lang = "")
    ∧ (∀ (key : String) (entries : List Entry) (lab : String)
        (svc : String → Except String (Option String)) (lang : String),
        (∀ p, ∃ m, svc p = .error m) →
        generate_research_directions key entries lab svc lang = "") := by
  refine ⟨?_, ?_, ?_, ?_, ?_, ?_⟩
  · intro entries svc lang
    simp [generate_trend_summary, gemini_client]
  · intro key svc lang
    by_cases hk : key = "" <;> simp [generate_trend_summary, gemini_client, hk]
  · intro key entries svc lang hsvc
    by_cases hk : key = ""
    · simp [generate_trend_summary, gemini_client, hk]
    · by_cases he : entries = []
      · simp [generate_trend_summary, gemini_client, hk, he]
      · simp only [generate_trend_summary, gemini_client, hk, if_false, he]
        split
        · rename_i t heq
          obtain ⟨m, hm⟩ := hsvc _
          rw [hm] at heq
          simp at heq
        · rfl
  · intro entries lab svc lang
    simp [generate_research_directions, gemini_client]
  · intro key lab svc lang
    by_cases hk : key = "" <;> simp [generate_research_directions, gemini_client, hk]
  · intro key entries lab svc lang hsvc
    by_cases hk : key = ""
    · simp [generate_research_directions, gemini_client, hk]
    · by_cases he : entries = []
      · simp [generate_research_directions, gemini_client, hk, he]
      · simp only [generate_research_directions, gemini_client, hk, if_false, he]
        split
        · rename_i t heq
          obtain ⟨m, hm⟩ := hsvc _
          rw [hm] at heq
          simp at heq
        · rfl

/-- C6 witness: concrete degraded runs of both adapters (missing credential,
empty record list, and an always-raising service). -/
theorem summarization_witness :
    generate_trend_summary "" [entA] svc_err "ko" = ""
    ∧ generate_trend_summary "key" [] svc_err "ko" = ""
    ∧ generate_trend_summary "key" [entA] svc_err "ko" = ""
    ∧ generate_research_directions "key" [entA] "lab" svc_err "ko" = "" :=
  ⟨summarization_never_aborts.1 [entA] svc_err "ko",
   summarization_never_aborts.2.1 "key" svc_err "ko",
   summarization_never_aborts.2.2.1 "key" [entA] svc_err "ko"
     (fun _ => ⟨"quota exceeded", rfl⟩),
   summarization_never_aborts.2.2.2.2.2 "key" [entA] "lab" svc_err "ko"
     (fun _ => ⟨"quota exceeded", rfl⟩)⟩

/-! ## State update lemmas and claims C8, C9, C10 -/

theorem mem_dedupStr {x : String} : ∀ l : List String, x ∈ dedupStr l ↔ x ∈ l := by
  intro l
  induction l with
  | nil => simp [dedupStr]
  | cons a as ih =>
    by_cases h : a ∈ dedupStr as
    · rw [show dedupStr (a :: as) = dedupStr as from by simp [dedupStr, h], ih]
      constructor
      · exact fun hx => List.mem_cons_of_mem _ hx
      · intro hmem
        rcases List.mem_cons.mp hmem with rfl | hx
        · exact ih.mp h
        · exact hx
    · rw [show dedupStr (a :: as) = a :: dedupStr as from by simp [dedupStr, h]]
      simp [ih]

theorem add_eids_superset {x : String} (entries : List Entry) :
    ∀ acc : List String, x ∈ acc → x ∈ add_eids acc entries := by
  induction entries with
  | nil => exact fun acc h => h
  | cons e es ih =>
    intro acc h
    show x ∈ add_eids (if e.eid = "" then acc else acc.insert e.eid) es
    apply ih
    split
    · exact h
    · exact List.mem_insert_iff.mpr (Or.inr h)

theorem mem_add_eids {x : String} (entries : List Entry) :
    ∀ acc : List String, x ∈ add_eids acc entries →
      x ∈ acc ∨ (x ≠ "" ∧ ∃ e ∈ entries, e.eid = x) := by
  induction entries with
  | nil => exact fun acc h => Or.inl h
  | cons e es ih =>
    intro acc h
    have h' : x ∈ add_eids (if e.eid = "" then acc else acc.insert e.eid) es := h
    rcases ih _ h' with hacc | ⟨hne, e', he', heq⟩
    · by_cases hke : e.eid = ""
      · rw [if_pos hke] at hacc
        exact Or.inl hacc
      · rw [if_neg hke] at hacc
        rcases List.mem_insert_iff.mp hacc with rfl | hacc'
        · exact Or.inr ⟨hke, e, List.mem_cons_self .., rfl⟩
        · exact Or.inl hacc'
    · exact Or.inr ⟨hne, e', List.mem_cons_of_mem _ he', heq⟩

theorem update_notified_superset (notified : List String) (entries : List Entry) :
    ∀ x ∈ notified, x ∈ update_notified notified entries := by
  intro x hx
  unfold update_notified binInsertSort
  exact (mem_binInsertSortAux strLt _ [] x).mpr
    (Or.inl (add_eids_superset entries _ ((mem_dedupStr notified).mpr hx)))

theorem update_notified_sorted (notified : List String) (entries : List Entry) :
    List.Sorted (· ≤ ·) (update_notified notified entries) := by
  have h := binInsertSortAux_pairwise (id : String → String) strLt
    (fun a b => decide_eq_decide.mpr Iff.rfl)
    (add_eids (dedupStr notified) entries) [] List.Pairwise.nil
  exact h

theorem mem_update_notified {x : String} (notified : List String) (entries : List Entry)
    (h : x ∈ update_notified notified entries) :
    x ∈ notified ∨ (x ≠ "" ∧ ∃ e ∈ entries, e.eid = x) := by
  unfold update_notified binInsertSort at h
  rcases (mem_binInsertSortAux _ _ _ _).mp h with h' | h'
  · rcases mem_add_eids entries _ h' with h'' | h''
    · exact Or.inl ((mem_dedupStr notified).mp h'')
    · exact Or.inr h''
  · simp at h'

/-- C8: the Notification State file is written only after the send succeeded.
If the loaded state is valid but the fetch raises, the run aborts with that
error and the state file is untouched; if every send attempt raises, the run
aborts with an error and the state file is untouched (whatever the fetch did);
and conversely any run that changes the state file terminated successfully.
So records fetched in a failed run stay outside the notified set and are
re-evaluated as new on the next run. -/
theorem state_saved_only_after_send :
    (∀ (env : RunEnv) (sf : Option Json) (st : PersistedState) (msg : String),
       load_state sf = some st → scopus_search_all env.server = .error msg →
       main_run env sf = (.error msg, sf))
    ∧ (∀ (env : RunEnv) (sf : Option Json),
        (∀ s b, ∃ m, env.send s b = .error m) →
        (∃ m, (main_run env sf).1 = .error m) ∧ (main_run env sf).2 = sf)
    ∧ (∀ (env : RunEnv) (sf : Option Json),
        (main_run env sf).2 ≠ sf → (main_run env sf).1 = .ok ()) := by
  refine ⟨?_, ?_, ?_⟩
  · intro env sf st msg hload hfetch
    simp [main_run, hload, hfetch]
  · intro env sf hfail
    cases hload : load_state sf with
    | none => simp [main_run, hload]
    | some st =>
      cases hfetch : scopus_search_all env.server with
      | error msg => simp [main_run, hload, hfetch]
      | ok entries =>
        simp only [main_run, hload, hfetch]
        split
        · rename_i msg heq
          exact ⟨⟨msg, rfl⟩, rfl⟩
        · rename_i u heq
          obtain ⟨m, hm⟩ := hfail _ _
          rw [hm] at heq
          simp at heq
  · intro env sf hne
    cases hload : load_state sf with
    | none => simp [main_run, hload] at hne
    | some st =>
      cases hfetch : scopus_search_all env.server with
      | error msg => simp [main_run, hload, hfetch] at hne
      | ok entries =>
        simp only [main_run, hload, hfetch] at hne ⊢
        split at hne
        · exact absurd rfl hne
        · rfl

/-- C8 witness: a concrete HTTP-500 run aborts with the fatal fetch error and
leaves the (absent) state file absent; a concrete run whose SMTP send raises
also leaves the state file untouched. -/
theorem state_saved_witness :
    main_run env_fetch_err none = (.error (scopusErr (server_err 0)), none)
    ∧ (main_run env_send_err none).2 = none :=
  ⟨state_saved_only_after_send.1 env_fetch_err none ⟨[], ""⟩ (scopusErr (server_err 0))
      rfl rfl,
   (state_saved_only_after_send.2.1 env_send_err none
      (fun _ _ => ⟨"SMTP auth failed", rfl⟩)).2⟩

/-- C9: in every run that terminates successfully, the state file holds a
saved state whose notified-EID list contains every EID of the loaded state
(the ledger only grows — `main` only ever `add`s to the set and never
removes) and is written in sorted order. -/
theorem notified_ledger_monotone_sorted (env : RunEnv) (sf : Option Json)
    (st : PersistedState) (hload : load_state sf = some st)
    (hok : (main_run env sf).1 = .ok ()) :
    ∃ st', (main_run env sf).2 = some (save_state st')
      ∧ (∀ x ∈ st.notified_eids, x ∈ st'.notified_eids)
      ∧ List.Sorted (· ≤ ·) st'.notified_eids := by
  cases hfetch : scopus_search_all env.server with
  | error msg => simp [main_run, hload, hfetch] at hok
  | ok entries =>
    simp only [main_run, hload, hfetch] at hok ⊢
    split at hok
    · simp at hok
    · rename_i u heq
      simp only [heq]
      exact ⟨⟨update_notified st.notified_eids entries, env.nowKst⟩, rfl,
        update_notified_superset st.notified_eids entries,
        update_notified_sorted st.notified_eids entries⟩

/-- C9 witness: the concrete successful run (empty prior state, records
`A, B, C` fetched, send succeeds) saves a grown, sorted ledger. -/
theorem notified_ledger_witness :
    ∃ st', (main_run env_ok none).2 = some (save_state st')
      ∧ (∀ x ∈ (PersistedState.mk [] "").notified_eids, x ∈ st'.notified_eids)
      ∧ List.Sorted (· ≤ ·) st'.notified_eids :=
  notified_ledger_monotone_sorted env_ok none ⟨[], ""⟩ rfl rfl

/-- C10: a record whose `eid` is absent/empty is dropped by the dedup pass of
`scopus_search_all` (every returned record has a truthy EID), excluded from
`new_since_last`, and its (empty) EID is never added to the persisted
notified set; none of these functions can raise — they are total. -/
theorem empty_eid_never_propagates :
    (∀ (rows : List Entry) (e : Entry), e ∈ dedup_by_eid rows → e.eid ≠ "")
    ∧ (∀ (notified : List String) (entries_30d : List Entry) (e : Entry),
        e ∈ new_since_last notified entries_30d → e.eid ≠ "")
    ∧ (∀ (notified : List String) (entries_30d : List Entry),
        "" ∉ notified → "" ∉ update_notified notified entries_30d) := by
  refine ⟨?_, ?_, ?_⟩
  · intro rows e he
    exact (mem_dedupGo (by simpa [dedup_by_eid] using he)).2.1
  · intro notified entries e he
    have hp := List.of_mem_filter he
    simp only [Bool.and_eq_true, Bool.not_eq_true', beq_eq_false_iff_ne] at hp
    exact hp.1
  · intro notified entries h hmem
    rcases mem_update_notified notified entries hmem with h' | ⟨hne, _⟩
    · exact h h'
    · exact hne rfl

/-- C10 witness: the record with the empty EID is dropped by dedup, and the
empty string does not enter the persisted set of a concrete update. -/
theorem empty_eid_witness :
    dedup_by_eid [entNoEid, entA] = [entA]
    ∧ entA.eid ≠ ""
    ∧ "" ∉ update_notified ["A"] [entNoEid] :=
  ⟨by decide,
   empty_eid_never_propagates.1 [entNoEid, entA] entA (by decide),
   empty_eid_never_propagates.2.2 ["A"] [entNoEid] (by decide)⟩
